import Mathlib

/-!
Verification of `src/klee/lib/Solver/Z3IteBuilder.cpp` (KLEE/S2E ite-tree
array builder).  The builder translates a read from a base array under an
update chain into a nested conditional (ite) expression, memoizing both the
per-array leaf vectors (`getArrayValues` / `array_variables_`) and every
resolved read (`getReadForArray` / `read_map_`).

The embedding below mirrors the C++ source directly:
* Z3 expressions are a small AST (`Expr`) covering exactly the constructs the
  builder emits: bit-vector literals (`context_.bv_val`), bit-vector constants
  (`context_.bv_const`), equality, and `Z3_mk_ite`.
* the KLEE `Array` descriptor keeps its identity (the C++ code keys caches by
  the `Array*` pointer and prints it with `%p`; here it is an abstract stable
  `ident : Nat`), its declared `size`, and `constantValues` when the array is
  constant (`isConstantArray`).
* an update chain (`UpdateNode*`) is a finite newest-to-oldest list; the null
  pointer sentinel "no further updates" is `UpdateList.nil`.
* the two builder caches are association lists inside `BuilderState`;
  `std::map::insert` does not overwrite an existing key, which `rmInsert`
  reproduces.  Stateful member functions take and return a `BuilderState`.
-/

namespace klee

/-- Z3 expressions as produced by the builder.  `bvConst v w` is
`context_.bv_val(v, w)` (value taken modulo `2^w`), `bvVar n w` is
`context_.bv_const(n, w)`, `eq` is `operator==`, and `ite` is `Z3_mk_ite`. -/
inductive Expr : Type where
  | bvConst : Nat → Nat → Expr
  | bvVar : String → Nat → Expr
  | eq : Expr → Expr → Expr
  | ite : Expr → Expr → Expr → Expr
deriving DecidableEq

/-- The KLEE `Array` descriptor: declared `name`, stable identity (the C++
code uses the `Array*` pointer value both as cache key and inside generated
leaf names via `%p`), declared `size`, and, for a constant array, the literal
byte values (`constantValues`); a symbolic array has `none`. -/
structure Array where
  name : String
  ident : Nat
  size : Nat
  constantValues : Option (List Nat)
deriving DecidableEq

/-- An update chain: `cons index value next`, newest write first;
`nil` is the null `UpdateNode*` sentinel meaning "base array, no more
updates". -/
inductive UpdateList : Type where
  | nil : UpdateList
  | cons : Expr → Expr → UpdateList → UpdateList
deriving DecidableEq

/-- The name `snprintf(buf, sizeof(buf), "%s_%p_%u", root->name.c_str(),
(void*)root, i)` gives to the symbolic leaf at offset `i` (the pointer is
rendered from the abstract identity; the 256-byte truncation of `snprintf`
is not modelled, no claim depends on it). -/
def leafName (root : Array) (i : Nat) : String :=
  root.name ++ "_" ++ toString root.ident ++ "_" ++ toString i

/-- The leaf vector `getArrayValues` builds on a cache miss: for a constant
array one 8-bit literal per offset (`bv_val(constantValues[i], 8)`), for a
symbolic array one fresh 8-bit constant per offset named by `leafName`. -/
def mkLeafVector (root : Array) : List Expr :=
  match root.constantValues with
  | some vs => (List.range root.size).map (fun i => Expr.bvConst (vs.getD i 0) 8)
  | none => (List.range root.size).map (fun i => Expr.bvVar (leafName root i) 8)

/-- The mutable state of a `Z3IteBuilder`: the `array_variables_` cache
(leaf vector per array identity) and the `read_map_` cache (resolved read per
(index, array, update-node) triple). -/
structure BuilderState where
  array_variables : List (Array × List Expr)
  read_map : List ((Expr × Array × UpdateList) × Expr)
deriving DecidableEq

/-- A freshly constructed builder: both caches empty. -/
def initState : BuilderState := ⟨[], []⟩

/-- Lookup in the `array_variables_` cache (`std::map::find`). -/
def avLookup (a : Array) : List (Array × List Expr) → Option (List Expr)
  | [] => none
  | (a2, v) :: rest => if a = a2 then some v else avLookup a rest

/-- Lookup in the `read_map_` cache (`std::map::find`). -/
def lookupRM (k : Expr × Array × UpdateList) :
    List ((Expr × Array × UpdateList) × Expr) → Option Expr
  | [] => none
  | (k2, v) :: rest => if k = k2 then some v else lookupRM k rest

/-- `read_map_.insert`: like `std::map::insert`, a no-op when the key is
already present. -/
def rmInsert (k : Expr × Array × UpdateList) (v : Expr)
    (m : List ((Expr × Array × UpdateList) × Expr)) :
    List ((Expr × Array × UpdateList) × Expr) :=
  match lookupRM k m with
  | some _ => m
  | none => (k, v) :: m

/-- `Z3IteBuilder::getArrayValues`: return the cached leaf vector for `root`,
or build it with `mkLeafVector`, cache it keyed by the array identity, and
return it. -/
def getArrayValues (root : Array) (s : BuilderState) : List Expr × BuilderState :=
  match avLookup root s.array_variables with
  | some v => (v, s)
  | none =>
    (mkLeafVector root,
      { s with array_variables := (root, mkLeafVector root) :: s.array_variables })

/-- `Z3IteBuilder::getInitialRead`: element `index` of the leaf vector. -/
def getInitialRead (root : Array) (index : Nat) (s : BuilderState) :
    Expr × BuilderState :=
  let p := getArrayValues root s
  (p.1.getD index (Expr.bvConst 0 8), p.2)

/-- The loop body of `getReadForInitialArray`: starting from
`ite_tree = context_.bv_val(0, 8)`, for `i = 0` up to `size - 1` set
`ite_tree = ite(index == bv_val(i, 32), elem_vector[i], ite_tree)`. -/
def buildIteTree (index : Expr) (leaves : List Expr) (size : Nat) : Expr :=
  (List.range size).foldl
    (fun tree i =>
      Expr.ite (Expr.eq index (Expr.bvConst i 32)) (leaves.getD i (Expr.bvConst 0 8)) tree)
    (Expr.bvConst 0 8)

/-- `Z3IteBuilder::getReadForInitialArray`: fetch the leaf vector (possibly
populating `array_variables_`) and fold it into the ite tree. -/
def getReadForInitialArray (index : Expr) (root : Array) (s : BuilderState) :
    Expr × BuilderState :=
  let p := getArrayValues root s
  (buildIteTree index p.1 root.size, p.2)

/-- `Z3IteBuilder::getReadForArray`: return the memoized expression for
(index, root, update node) when present; otherwise resolve the rest of the
chain (the base array when the node is null), wrap one conditional
`ite(index == un.index, un.value, rest)` for a real write, insert the result
into `read_map_`, and return it. -/
def getReadForArray (index : Expr) (root : Array) :
    UpdateList → BuilderState → Expr × BuilderState
  | un, s =>
    match lookupRM (index, root, un) s.read_map with
    | some e => (e, s)
    | none =>
      match un with
      | .nil =>
        let p := getReadForInitialArray index root s
        (p.1, { p.2 with read_map := rmInsert (index, root, UpdateList.nil) p.1 p.2.read_map })
      | .cons ui uv next =>
        let p := getReadForArray index root next s
        let result := Expr.ite (Expr.eq index ui) uv p.1
        (result,
          { p.2 with
            read_map := rmInsert (index, root, UpdateList.cons ui uv next) result p.2.read_map })

/-! ## Reference functions used to state the claims -/

/-- The ite tree of `buildIteTree`, peeled from the top: `iteChain n` is the
tree over offsets `0 .. n-1`, whose outermost conditional tests offset
`n - 1` and whose innermost default is the 8-bit constant 0. -/
def iteChain (index : Expr) (leaves : List Expr) : Nat → Expr
  | 0 => Expr.bvConst 0 8
  | n + 1 =>
    Expr.ite (Expr.eq index (Expr.bvConst n 32)) (leaves.getD n (Expr.bvConst 0 8))
      (iteChain index leaves n)

/-- The expression `getReadForArray` computes, with the cache plumbing
stripped: one conditional per update, then the base-array tree. -/
def pureRead (index : Expr) (root : Array) : UpdateList → Expr
  | .nil => buildIteTree index (mkLeafVector root) root.size
  | .cons ui uv next => Expr.ite (Expr.eq index ui) uv (pureRead index root next)

/-- Modelled from the spec (section 4.2): a right-folded conditional chain
over the leaf vector, starting from the last offset's leaf as the innermost
default and wrapping each offset from last down to first, so that the
outermost conditional tests offset 0 and the chain defaults to offset
`size-1`'s leaf when no equality holds. -/
def specChainRead (index : Expr) (leaves : List Expr) (size : Nat) : Expr :=
  (List.range size).foldr
    (fun i acc =>
      Expr.ite (Expr.eq index (Expr.bvConst i 32)) (leaves.getD i (Expr.bvConst 0 8)) acc)
    (leaves.getD (size - 1) (Expr.bvConst 0 8))

/-! ## Semantics and sorts of the emitted expressions -/

/-- Evaluation of an emitted expression under an assignment `σ` of the
symbolic 8-bit constants: bit-vector literals reduce modulo their width,
equality yields 1 or 0, and `ite` tests its condition against 1. -/
def eval (σ : String → Nat) : Expr → Nat
  | .bvConst v w => v % 2 ^ w
  | .bvVar n w => σ n % 2 ^ w
  | .eq a b => if eval σ a = eval σ b then 1 else 0
  | .ite c t e => if eval σ c = 1 then eval σ t else eval σ e

/-- Z3 sorts occurring in the emitted expressions. -/
inductive Z3Sort : Type where
  | bv : Nat → Z3Sort
  | boolS : Z3Sort
deriving DecidableEq

/-- Sort checking: `none` means the expression is ill-sorted (`Z3_mk_eq` /
`Z3_mk_ite` would be rejected by the solver). -/
def sortOf : Expr → Option Z3Sort
  | .bvConst _ w => some (.bv w)
  | .bvVar _ w => some (.bv w)
  | .eq a b =>
    match sortOf a, sortOf b with
    | some sa, some sb => if sa = sb then some .boolS else none
    | _, _ => none
  | .ite c t e =>
    match sortOf c, sortOf t, sortOf e with
    | some .boolS, some st, some se => if st = se then some st else none
    | _, _, _ => none

/-- The right-hand sides of the equality tests along the else-spine of an ite
chain, outermost first: exactly the comparisons the base-array fold makes. -/
def iteSpineEqRhs : Expr → List Expr
  | .ite c _ acc =>
    (match c with
     | .eq _ b => [b]
     | _ => []) ++ iteSpineEqRhs acc
  | _ => []

/-! ## Basic lemmas about the pure layer -/

lemma buildIteTree_succ (index : Expr) (leaves : List Expr) (n : Nat) :
    buildIteTree index leaves (n + 1) =
      Expr.ite (Expr.eq index (Expr.bvConst n 32)) (leaves.getD n (Expr.bvConst 0 8))
        (buildIteTree index leaves n) := by
  simp [buildIteTree, List.range_succ]

lemma buildIteTree_eq_iteChain (index : Expr) (leaves : List Expr) :
    ∀ n, buildIteTree index leaves n = iteChain index leaves n
  | 0 => rfl
  | n + 1 => by
    rw [buildIteTree_succ, buildIteTree_eq_iteChain index leaves n]
    rfl

lemma eval_iteChain_hit (σ : String → Nat) (index : Expr) (leaves : List Expr)
    {k n : Nat} (hk : eval σ index = k) (h1 : k < n) (h2 : n ≤ 2 ^ 32) :
    eval σ (iteChain index leaves n) = eval σ (leaves.getD k (Expr.bvConst 0 8)) := by
  induction n with
  | zero => omega
  | succ n ih =>
    have hn32 : n % 2 ^ 32 = n := Nat.mod_eq_of_lt (by omega)
    by_cases hkn : k = n
    · subst hkn
      simp only [iteChain, eval, hk, hn32]
      simp
    · simp only [iteChain, eval, hk, hn32]
      rw [if_neg hkn, if_neg (show ¬(0 : Nat) = 1 by omega)]
      exact ih (by omega) (by omega)

lemma eval_iteChain_miss (σ : String → Nat) (index : Expr) (leaves : List Expr)
    {k : Nat} (hk : eval σ index = k) (h2 : k < 2 ^ 32) :
    ∀ n, n ≤ k → eval σ (iteChain index leaves n) = 0
  | 0, _ => by simp [iteChain, eval]
  | n + 1, h1 => by
    have hn32 : n % 2 ^ 32 = n := Nat.mod_eq_of_lt (by omega)
    have hne : eval σ index ≠ n % 2 ^ 32 := by rw [hk, hn32]; omega
    simp only [iteChain, eval, hne, if_false]
    exact eval_iteChain_miss σ index leaves hk h2 n (by omega)

lemma sortOf_iteChain (index : Expr) (leaves : List Expr)
    (hl : ∀ i, sortOf (leaves.getD i (Expr.bvConst 0 8)) = some (.bv 8))
    (hi : sortOf index = some (.bv 32)) :
    ∀ n, sortOf (iteChain index leaves n) = some (.bv 8)
  | 0 => rfl
  | n + 1 => by
    simp only [iteChain, sortOf, hi, hl n, sortOf_iteChain index leaves hl hi n]
    rfl

lemma sortOf_index_of_iteChain_ne_none {index : Expr} {leaves : List Expr} {n : Nat}
    (h : sortOf (iteChain index leaves (n + 1)) ≠ none) :
    sortOf index = some (.bv 32) := by
  rcases hs : sortOf index with _ | sa
  · exfalso
    apply h
    simp [iteChain, sortOf, hs]
  · rcases hsa : sa with w | _
    · by_cases hw : w = 32
      · subst hw hsa; rfl
      · exfalso
        apply h
        simp [iteChain, sortOf, hs, hsa, hw]
    · exfalso
      apply h
      simp [iteChain, sortOf, hs, hsa]

lemma iteSpineEqRhs_iteChain (index : Expr) (leaves : List Expr) :
    ∀ n, iteSpineEqRhs (iteChain index leaves n) =
      (List.range n).reverse.map (fun i => Expr.bvConst i 32)
  | 0 => rfl
  | n + 1 => by
    simp [iteChain, iteSpineEqRhs, List.range_succ,
      iteSpineEqRhs_iteChain index leaves n]

lemma mkLeafVector_length (root : Array) : (mkLeafVector root).length = root.size := by
  rcases h : root.constantValues with _ | vs <;> simp [mkLeafVector, h]

lemma mkLeafVector_getD_const {root : Array} {vs : List Nat}
    (h : root.constantValues = some vs) {i : Nat} (hi : i < root.size) (d : Expr) :
    (mkLeafVector root).getD i d = Expr.bvConst (vs.getD i 0) 8 := by
  simp [mkLeafVector, h, List.getD_eq_getElem?_getD, List.getElem?_map,
    List.getElem?_range hi]

lemma mkLeafVector_getD_sym {root : Array}
    (h : root.constantValues = none) {i : Nat} (hi : i < root.size) (d : Expr) :
    (mkLeafVector root).getD i d = Expr.bvVar (leafName root i) 8 := by
  simp [mkLeafVector, h, List.getD_eq_getElem?_getD, List.getElem?_map,
    List.getElem?_range hi]

lemma sortOf_mkLeafVector_getD (root : Array) (i : Nat) :
    sortOf ((mkLeafVector root).getD i (Expr.bvConst 0 8)) = some (.bv 8) := by
  by_cases hi : i < root.size
  · rcases h : root.constantValues with _ | vs
    · rw [mkLeafVector_getD_sym h hi]; rfl
    · rw [mkLeafVector_getD_const h hi]; rfl
  · rw [List.getD_eq_default]
    · rfl
    · rw [mkLeafVector_length]; omega

/-! ## Cache invariants and lemmas about the stateful layer -/

/-- Every leaf vector stored in `array_variables_` is the one `mkLeafVector`
builds for its key. -/
def goodAV (s : BuilderState) : Prop :=
  ∀ a v, avLookup a s.array_variables = some v → v = mkLeafVector a

/-- Every expression stored in `read_map_` is the cache-free resolution of
its key. -/
def goodRM (s : BuilderState) : Prop :=
  ∀ i r u e, lookupRM (i, r, u) s.read_map = some e → e = pureRead i r u

lemma goodAV_initState : goodAV initState := by
  intro a v h
  simp [avLookup, initState] at h

lemma goodRM_initState : goodRM initState := by
  intro i r u e h
  simp [lookupRM, initState] at h

lemma getArrayValues_fst {root : Array} {s : BuilderState} (h : goodAV s) :
    (getArrayValues root s).1 = mkLeafVector root := by
  unfold getArrayValues
  rcases hl : avLookup root s.array_variables with _ | v
  · rfl
  · exact h root v hl

lemma getArrayValues_goodAV {root : Array} {s : BuilderState} (h : goodAV s) :
    goodAV (getArrayValues root s).2 := by
  unfold getArrayValues
  rcases hl : avLookup root s.array_variables with _ | v
  · intro a v2 h2
    simp only [avLookup] at h2
    by_cases ha : a = root
    · subst ha
      rw [if_pos rfl] at h2
      exact (Option.some_inj.mp h2).symm
    · rw [if_neg ha] at h2
      exact h a v2 h2
  · exact h

lemma getArrayValues_read_map (root : Array) (s : BuilderState) :
    ((getArrayValues root s).2).read_map = s.read_map := by
  unfold getArrayValues
  rcases hl : avLookup root s.array_variables with _ | v <;> rfl

lemma getArrayValues_idem (root : Array) (s : BuilderState) :
    getArrayValues root ((getArrayValues root s).2) = getArrayValues root s := by
  unfold getArrayValues
  rcases hl : avLookup root s.array_variables with _ | v
  · simp [avLookup, hl]
  · rw [hl]

lemma lookupRM_rmInsert_pres {k2 : Expr × Array × UpdateList} {v2 : Expr}
    {m : List ((Expr × Array × UpdateList) × Expr)}
    (k : Expr × Array × UpdateList) (v : Expr)
    (h : lookupRM k2 m = some v2) :
    lookupRM k2 (rmInsert k v m) = some v2 := by
  unfold rmInsert
  rcases hl : lookupRM k m with _ | v0
  · simp only [lookupRM]
    by_cases hk : k2 = k
    · subst hk
      rw [hl] at h
      exact absurd h (by simp)
    · rw [if_neg hk]
      exact h
  · exact h

lemma lookupRM_rmInsert_self {k : Expr × Array × UpdateList}
    {m : List ((Expr × Array × UpdateList) × Expr)} (v : Expr)
    (h : lookupRM k m = none) :
    lookupRM k (rmInsert k v m) = some v := by
  unfold rmInsert
  rw [h]
  simp [lookupRM]

lemma lookupRM_rmInsert_cases {k2 k : Expr × Array × UpdateList} {e v : Expr}
    {m : List ((Expr × Array × UpdateList) × Expr)}
    (h : lookupRM k2 (rmInsert k v m) = some e) :
    lookupRM k2 m = some e ∨ (k2 = k ∧ e = v) := by
  unfold rmInsert at h
  rcases hl : lookupRM k m with _ | v0
  · rw [hl] at h
    simp only [lookupRM] at h
    by_cases hk : k2 = k
    · subst hk
      rw [if_pos rfl] at h
      exact Or.inr ⟨rfl, (Option.some_inj.mp h).symm⟩
    · rw [if_neg hk] at h
      exact Or.inl h
  · rw [hl] at h
    exact Or.inl h

/-- `u` is a (not necessarily strict) suffix of an update chain. -/
def isSuffixU : UpdateList → UpdateList → Prop
  | u, UpdateList.nil => u = UpdateList.nil
  | u, UpdateList.cons i v next => u = UpdateList.cons i v next ∨ isSuffixU u next

/-- Length of an update chain. -/
def ulen : UpdateList → Nat
  | .nil => 0
  | .cons _ _ next => ulen next + 1

lemma isSuffixU_refl (u : UpdateList) : isSuffixU u u := by
  cases u <;> simp [isSuffixU]

lemma isSuffixU_ulen_le {u : UpdateList} :
    ∀ {v : UpdateList}, isSuffixU u v → ulen u ≤ ulen v := by
  intro v
  induction v with
  | nil =>
    intro h
    rw [show u = UpdateList.nil from h]
  | cons i w next ih =>
    intro h
    rcases h with h | h
    · rw [h]
    · exact Nat.le_trans (ih h) (Nat.le_succ _)

lemma not_isSuffixU_cons_self (i v : Expr) (next : UpdateList) :
    ¬ isSuffixU (UpdateList.cons i v next) next := by
  intro h
  have := isSuffixU_ulen_le h
  simp [ulen] at this

lemma getReadForInitialArray_fst (index : Expr) (root : Array) (s : BuilderState) :
    (getReadForInitialArray index root s).1 =
      buildIteTree index (getArrayValues root s).1 root.size := rfl

lemma getReadForInitialArray_snd (index : Expr) (root : Array) (s : BuilderState) :
    (getReadForInitialArray index root s).2 = (getArrayValues root s).2 := rfl

lemma GR_hit {index : Expr} {root : Array} {un : UpdateList} {s : BuilderState} {e : Expr}
    (h : lookupRM (index, root, un) s.read_map = some e) :
    getReadForArray index root un s = (e, s) := by
  cases un with
  | nil => rw [getReadForArray, h]
  | cons ui uv next => rw [getReadForArray, h]

lemma GR_nil_miss {index : Expr} {root : Array} {s : BuilderState}
    (h : lookupRM (index, root, UpdateList.nil) s.read_map = none) :
    getReadForArray index root UpdateList.nil s =
      ((getReadForInitialArray index root s).1,
       { (getReadForInitialArray index root s).2 with
         read_map :=
           rmInsert (index, root, UpdateList.nil) (getReadForInitialArray index root s).1
             ((getReadForInitialArray index root s).2).read_map }) := by
  rw [getReadForArray, h]

lemma GR_cons_miss {index : Expr} {root : Array} {ui uv : Expr} {next : UpdateList}
    {s : BuilderState}
    (h : lookupRM (index, root, UpdateList.cons ui uv next) s.read_map = none) :
    getReadForArray index root (UpdateList.cons ui uv next) s =
      (Expr.ite (Expr.eq index ui) uv (getReadForArray index root next s).1,
       { (getReadForArray index root next s).2 with
         read_map :=
           rmInsert (index, root, UpdateList.cons ui uv next)
             (Expr.ite (Expr.eq index ui) uv (getReadForArray index root next s).1)
             ((getReadForArray index root next s).2).read_map }) := by
  rw [getReadForArray, h]

/-- Main behaviour of `getReadForArray`: under the cache invariants it
returns the cache-free resolution and preserves the invariants; it never
drops or changes a cache entry; every new entry is keyed by a suffix of the
resolved chain; and after the call the key of the call maps to the returned
expression. -/
lemma getReadForArray_spec (index : Expr) (root : Array) :
    ∀ (un : UpdateList) (s : BuilderState),
      (goodAV s → goodRM s →
        (getReadForArray index root un s).1 = pureRead index root un
        ∧ goodAV (getReadForArray index root un s).2
        ∧ goodRM (getReadForArray index root un s).2)
      ∧ (∀ k e, lookupRM k s.read_map = some e →
          lookupRM k ((getReadForArray index root un s).2).read_map = some e)
      ∧ (∀ k e, lookupRM k ((getReadForArray index root un s).2).read_map = some e →
          lookupRM k s.read_map = some e ∨
            ∃ u2, isSuffixU u2 un ∧ k = (index, root, u2))
      ∧ lookupRM (index, root, un) ((getReadForArray index root un s).2).read_map
          = some (getReadForArray index root un s).1 := by
  intro un
  induction un with
  | nil =>
    intro s
    rcases hl : lookupRM (index, root, UpdateList.nil) s.read_map with _ | e
    · rw [GR_nil_miss hl]
      simp only [getReadForInitialArray_fst, getReadForInitialArray_snd,
        getArrayValues_read_map]
      refine ⟨?_, ?_, ?_, ?_⟩
      · intro hAV hRM
        refine ⟨?_, ?_, ?_⟩
        · rw [getArrayValues_fst hAV]
          rfl
        · exact getArrayValues_goodAV hAV
        · intro i r u e h2
          rcases lookupRM_rmInsert_cases h2 with h3 | ⟨hk, he⟩
          · exact hRM i r u e h3
          · injection hk with h5 h6
            injection h6 with h7 h8
            subst h5
            subst h7
            subst h8
            rw [he, getArrayValues_fst hAV]
            rfl
      · intro k e h2
        exact lookupRM_rmInsert_pres _ _ h2
      · intro k e h2
        rcases lookupRM_rmInsert_cases h2 with h3 | ⟨hk, he⟩
        · exact Or.inl h3
        · exact Or.inr ⟨UpdateList.nil, rfl, hk⟩
      · exact lookupRM_rmInsert_self _ hl
    · rw [GR_hit hl]
      refine ⟨?_, ?_, ?_, ?_⟩
      · intro hAV hRM
        exact ⟨hRM index root UpdateList.nil e hl, hAV, hRM⟩
      · intro k e2 h2
        exact h2
      · intro k e2 h2
        exact Or.inl h2
      · exact hl
  | cons ui uv next ih =>
    intro s
    rcases hl : lookupRM (index, root, UpdateList.cons ui uv next) s.read_map with _ | e
    · obtain ⟨ih1, ih2, ih3, ih4⟩ := ih s
      have hfresh : lookupRM (index, root, UpdateList.cons ui uv next)
          ((getReadForArray index root next s).2).read_map = none := by
        rcases h2 : lookupRM (index, root, UpdateList.cons ui uv next)
            ((getReadForArray index root next s).2).read_map with _ | e2
        · rfl
        · exfalso
          rcases ih3 _ _ h2 with h3 | ⟨u2, hsuf, hk⟩
          · rw [hl] at h3
            exact Option.noConfusion h3
          · injection hk with h5 h6
            injection h6 with h7 h8
            subst h8
            exact not_isSuffixU_cons_self ui uv next hsuf
      rw [GR_cons_miss hl]
      refine ⟨?_, ?_, ?_, ?_⟩
      · intro hAV hRM
        obtain ⟨g1, g2, g3⟩ := ih1 hAV hRM
        refine ⟨?_, ?_, ?_⟩
        · rw [g1]
          rfl
        · exact g2
        · intro i r u e h2
          rcases lookupRM_rmInsert_cases h2 with h3 | ⟨hk, he⟩
          · exact g3 i r u e h3
          · injection hk with h5 h6
            injection h6 with h7 h8
            subst h5
            subst h7
            subst h8
            rw [he, g1]
            rfl
      · intro k e2 h2
        exact lookupRM_rmInsert_pres _ _ (ih2 k e2 h2)
      · intro k e2 h2
        rcases lookupRM_rmInsert_cases h2 with h3 | ⟨hk, he⟩
        · rcases ih3 _ _ h3 with h4 | ⟨u2, hsuf, hk2⟩
          · exact Or.inl h4
          · exact Or.inr ⟨u2, Or.inr hsuf, hk2⟩
        · exact Or.inr ⟨UpdateList.cons ui uv next, isSuffixU_refl _, hk⟩
      · exact lookupRM_rmInsert_self _ hfresh
    · rw [GR_hit hl]
      refine ⟨?_, ?_, ?_, ?_⟩
      · intro hAV hRM
        exact ⟨hRM index root (UpdateList.cons ui uv next) e hl, hAV, hRM⟩
      · intro k e2 h2
        exact h2
      · intro k e2 h2
        exact Or.inl h2
      · exact hl

lemma getReadForArray_initState (index : Expr) (root : Array) (un : UpdateList) :
    (getReadForArray index root un initState).1 = pureRead index root un :=
  ((getReadForArray_spec index root un initState).1 goodAV_initState goodRM_initState).1

lemma getInitialRead_fst (root : Array) (k : Nat) (s : BuilderState) :
    (getInitialRead root k s).1 = (getArrayValues root s).1.getD k (Expr.bvConst 0 8) := rfl

lemma lookupRM_none_not_mem {k : Expr × Array × UpdateList} :
    ∀ {m : List ((Expr × Array × UpdateList) × Expr)},
      lookupRM k m = none → k ∉ m.map Prod.fst := by
  intro m
  induction m with
  | nil => intro _ h; simp at h
  | cons p rest ih =>
    intro h
    obtain ⟨k2, v2⟩ := p
    simp only [lookupRM] at h
    by_cases hk : k = k2
    · rw [if_pos hk] at h
      exact absurd h (by simp)
    · rw [if_neg hk] at h
      simp only [List.map_cons, List.mem_cons]
      rintro (h2 | h2)
      · exact hk h2
      · exact ih h h2

lemma rmInsert_nodup {k : Expr × Array × UpdateList} {v : Expr}
    {m : List ((Expr × Array × UpdateList) × Expr)}
    (h : List.Nodup (m.map Prod.fst)) :
    List.Nodup ((rmInsert k v m).map Prod.fst) := by
  unfold rmInsert
  rcases hl : lookupRM k m with _ | v0
  · simp only [List.map_cons, List.nodup_cons]
    exact ⟨lookupRM_none_not_mem hl, h⟩
  · exact h

lemma getReadForArray_nodup (index : Expr) (root : Array) :
    ∀ (un : UpdateList) (s : BuilderState),
      List.Nodup (s.read_map.map Prod.fst) →
      List.Nodup ((((getReadForArray index root un s).2).read_map).map Prod.fst) := by
  intro un
  induction un with
  | nil =>
    intro s h
    rcases hl : lookupRM (index, root, UpdateList.nil) s.read_map with _ | e
    · rw [GR_nil_miss hl]
      simp only [getReadForInitialArray_snd, getArrayValues_read_map]
      exact rmInsert_nodup h
    · rw [GR_hit hl]
      exact h
  | cons ui uv next ih =>
    intro s h
    rcases hl : lookupRM (index, root, UpdateList.cons ui uv next) s.read_map with _ | e
    · rw [GR_cons_miss hl]
      exact rmInsert_nodup (ih s h)
    · rw [GR_hit hl]
      exact h

/-! ## The claims -/

/-- Claim C1 (corrected), counterexample to the claim as stated: for the
constant array `[10, 20]` of size 2 and a read at the concrete index 5 with
no updates, the expression the code builds differs from the spec's
right-folded chain (`specChainRead`); moreover, when no equality holds the
code's expression evaluates to 0 while the spec's chain evaluates to the
last offset's leaf, 20. -/
theorem C1_counterexample :
    (getReadForInitialArray (Expr.bvConst 5 32) (⟨"A", 0, 2, some [10, 20]⟩ : Array)
        initState).1 ≠
      specChainRead (Expr.bvConst 5 32)
        (mkLeafVector (⟨"A", 0, 2, some [10, 20]⟩ : Array)) 2
    ∧ eval (fun _ => 0)
        ((getReadForInitialArray (Expr.bvConst 5 32) (⟨"A", 0, 2, some [10, 20]⟩ : Array)
          initState).1) = 0
    ∧ eval (fun _ => 0)
        (specChainRead (Expr.bvConst 5 32)
          (mkLeafVector (⟨"A", 0, 2, some [10, 20]⟩ : Array)) 2) = 20 := by
  decide

/-- Claim C1 (amended): for every array, the base-array read expression is a
left-folded conditional chain over the array's leaf vector: the innermost
default is the 8-bit constant 0, each offset from first to last is wrapped
as an equality test against the offset selecting that offset's leaf, and the
outermost conditional tests offset `size - 1` (so when no equality holds the
expression defaults to the byte 0, not to any leaf). -/
theorem C1_base_chain (index : Expr) (root : Array) :
    (getReadForInitialArray index root initState).1 =
      iteChain index (mkLeafVector root) root.size := by
  rw [getReadForInitialArray_fst, getArrayValues_fst goodAV_initState,
    buildIteTree_eq_iteChain]

/-- Claim C2: for a base array and update chain `[(i0,v0), (i1,v1)]`
(newest first), resolving a read at an index that evaluates like `i0`
evaluates to `v0` regardless of the array's contents; and resolving at an
index that evaluates differently from both `i0` and `i1`, to an in-range
value `k`, evaluates to the base array's value at `k`
(`getInitialRead root k`). -/
theorem C2_read_over_write (root : Array) (i0e v0e i1e v1e idx : Expr)
    (σ : String → Nat) :
    (eval σ idx = eval σ i0e →
      eval σ ((getReadForArray idx root
          (UpdateList.cons i0e v0e (UpdateList.cons i1e v1e UpdateList.nil))
          initState).1) = eval σ v0e)
    ∧ (∀ k : Nat, eval σ idx = k → eval σ idx ≠ eval σ i0e →
        eval σ idx ≠ eval σ i1e → k < root.size → root.size ≤ 2 ^ 32 →
        eval σ ((getReadForArray idx root
            (UpdateList.cons i0e v0e (UpdateList.cons i1e v1e UpdateList.nil))
            initState).1) = eval σ ((getInitialRead root k initState).1)) := by
  rw [getReadForArray_initState]
  constructor
  · intro h
    simp only [pureRead, eval, h]
    simp
  · intro k hk hne0 hne1 hklt hsz
    simp only [pureRead, eval]
    rw [if_neg hne0, if_neg (show ¬(0 : Nat) = 1 by omega),
      if_neg hne1, if_neg (show ¬(0 : Nat) = 1 by omega)]
    rw [buildIteTree_eq_iteChain, eval_iteChain_hit σ idx (mkLeafVector root) hk hklt hsz,
      getInitialRead_fst, getArrayValues_fst goodAV_initState]

/-- Witness for C2 on the spec's scenario array `[10,20,30,40]` with updates
`[(2,99), (3,7)]`: a read at index 2 evaluates to 99, and a read at index 0
evaluates to the base value at offset 0. -/
theorem C2_read_over_write_witness :
    eval (fun _ => 0)
        ((getReadForArray (Expr.bvConst 2 32) (⟨"A", 0, 4, some [10, 20, 30, 40]⟩ : Array)
          (UpdateList.cons (Expr.bvConst 2 32) (Expr.bvConst 99 8)
            (UpdateList.cons (Expr.bvConst 3 32) (Expr.bvConst 7 8) UpdateList.nil))
          initState).1) = eval (fun _ => 0) (Expr.bvConst 99 8)
    ∧ eval (fun _ => 0)
        ((getReadForArray (Expr.bvConst 0 32) (⟨"A", 0, 4, some [10, 20, 30, 40]⟩ : Array)
          (UpdateList.cons (Expr.bvConst 2 32) (Expr.bvConst 99 8)
            (UpdateList.cons (Expr.bvConst 3 32) (Expr.bvConst 7 8) UpdateList.nil))
          initState).1) =
        eval (fun _ => 0)
          ((getInitialRead (⟨"A", 0, 4, some [10, 20, 30, 40]⟩ : Array) 0 initState).1) :=
  ⟨(C2_read_over_write (⟨"A", 0, 4, some [10, 20, 30, 40]⟩ : Array)
      (Expr.bvConst 2 32) (Expr.bvConst 99 8) (Expr.bvConst 3 32) (Expr.bvConst 7 8)
      (Expr.bvConst 2 32) (fun _ => 0)).1 (by decide),
   (C2_read_over_write (⟨"A", 0, 4, some [10, 20, 30, 40]⟩ : Array)
      (Expr.bvConst 2 32) (Expr.bvConst 99 8) (Expr.bvConst 3 32) (Expr.bvConst 7 8)
      (Expr.bvConst 0 32) (fun _ => 0)).2 0 (by decide) (by decide) (by decide)
      (by decide) (by decide)⟩

/-- Claim C3: for every constant array of size N with byte values
`v0..v(N-1)` and every concrete in-range index `k` (sizes within the 32-bit
index space), resolving a read at `k` with no updates yields an expression
that evaluates to exactly `vk`. -/
theorem C3_constant_read (root : Array) (vs : List Nat) (k : Nat) (σ : String → Nat)
    (hc : root.constantValues = some vs) (hlen : vs.length = root.size)
    (hk : k < root.size) (hsz : root.size ≤ 2 ^ 32) (hv : vs.getD k 0 < 256) :
    eval σ ((getReadForArray (Expr.bvConst k 32) root UpdateList.nil initState).1) =
      vs.getD k 0 := by
  rw [getReadForArray_initState]
  simp only [pureRead]
  rw [buildIteTree_eq_iteChain]
  have hidx : eval σ (Expr.bvConst k 32) = k := by
    simp only [eval]
    exact Nat.mod_eq_of_lt (by omega)
  rw [eval_iteChain_hit σ _ (mkLeafVector root) hidx hk hsz,
    mkLeafVector_getD_const hc hk]
  simp only [eval]
  exact Nat.mod_eq_of_lt (by omega)

/-- Witness for C3: reading offset 1 of the constant array `[10,20,30,40]`
with no updates evaluates to 20. -/
theorem C3_constant_read_witness :
    eval (fun _ => 0)
        ((getReadForArray (Expr.bvConst 1 32) (⟨"A", 0, 4, some [10, 20, 30, 40]⟩ : Array)
          UpdateList.nil initState).1) = [10, 20, 30, 40].getD 1 0 :=
  C3_constant_read (⟨"A", 0, 4, some [10, 20, 30, 40]⟩ : Array) [10, 20, 30, 40] 1
    (fun _ => 0) (by decide) (by decide) (by decide) (by decide) (by decide)

/-- Claim C4: resolving the same (index expression, array identity,
update-node identity) triple a second time returns exactly the value stored
in the cache by the first call, with the builder state unchanged: the
second call is a pure cache hit, adding no entries. -/
theorem C4_memoized_idempotent (index : Expr) (root : Array) (un : UpdateList)
    (s : BuilderState) :
    getReadForArray index root un ((getReadForArray index root un s).2) =
      getReadForArray index root un s := by
  rw [GR_hit ((getReadForArray_spec index root un s).2.2.2)]

/-- Claim C5 (corrected), counterexample to the claim as stated: for the
size-1 constant array `[7]` with no updates, a read at the concrete index 1
does not yield the array's single leaf: the result is a conditional that
evaluates to 0, while the single leaf evaluates to 7. -/
theorem C5_counterexample :
    (getReadForArray (Expr.bvConst 1 32) (⟨"A", 0, 1, some [7]⟩ : Array)
        UpdateList.nil initState).1 ≠
      (getInitialRead (⟨"A", 0, 1, some [7]⟩ : Array) 0 initState).1
    ∧ eval (fun _ => 0)
        ((getReadForArray (Expr.bvConst 1 32) (⟨"A", 0, 1, some [7]⟩ : Array)
          UpdateList.nil initState).1) = 0
    ∧ eval (fun _ => 0)
        ((getInitialRead (⟨"A", 0, 1, some [7]⟩ : Array) 0 initState).1) = 7 := by
  decide

/-- Claim C5 (amended): for every array of size 1 and no updates, resolving
a read yields the single conditional testing the index against offset 0,
with the single leaf in the then-branch and the byte 0 as default; it
evaluates to the single leaf under any assignment in which the index
evaluates to 0, and to 0 under any assignment in which the index evaluates
to a nonzero 32-bit value. -/
theorem C5_size_one (index : Expr) (root : Array) (σ : String → Nat)
    (h1 : root.size = 1) :
    (getReadForArray index root UpdateList.nil initState).1 =
        Expr.ite (Expr.eq index (Expr.bvConst 0 32))
          ((getInitialRead root 0 initState).1) (Expr.bvConst 0 8)
    ∧ (eval σ index = 0 →
        eval σ ((getReadForArray index root UpdateList.nil initState).1) =
          eval σ ((getInitialRead root 0 initState).1))
    ∧ (∀ k, eval σ index = k → k ≠ 0 → k < 2 ^ 32 →
        eval σ ((getReadForArray index root UpdateList.nil initState).1) = 0) := by
  rw [getReadForArray_initState]
  simp only [pureRead]
  rw [buildIteTree_eq_iteChain, h1,
    getInitialRead_fst, getArrayValues_fst goodAV_initState]
  refine ⟨rfl, ?_, ?_⟩
  · intro h
    exact eval_iteChain_hit σ index (mkLeafVector root) h (by omega) (by omega)
  · intro k hk hk0 hk32
    exact eval_iteChain_miss σ index (mkLeafVector root) hk hk32 1 (by omega)

/-- Witness for C5 (amended) on the size-1 constant array `[7]`: the
resolved read is the single conditional, a read whose index evaluates to 0
evaluates to the leaf, and a read at index 1 evaluates to 0. -/
theorem C5_size_one_witness :
    ((getReadForArray (Expr.bvConst 0 32) (⟨"A", 0, 1, some [7]⟩ : Array)
        UpdateList.nil initState).1 =
      Expr.ite (Expr.eq (Expr.bvConst 0 32) (Expr.bvConst 0 32))
        ((getInitialRead (⟨"A", 0, 1, some [7]⟩ : Array) 0 initState).1)
        (Expr.bvConst 0 8))
    ∧ eval (fun _ => 0)
        ((getReadForArray (Expr.bvConst 0 32) (⟨"A", 0, 1, some [7]⟩ : Array)
          UpdateList.nil initState).1) =
        eval (fun _ => 0)
          ((getInitialRead (⟨"A", 0, 1, some [7]⟩ : Array) 0 initState).1) :=
  ⟨(C5_size_one (Expr.bvConst 0 32) (⟨"A", 0, 1, some [7]⟩ : Array)
      (fun _ => 0) (by decide)).1,
   (C5_size_one (Expr.bvConst 0 32) (⟨"A", 0, 1, some [7]⟩ : Array)
      (fun _ => 0) (by decide)).2.1 (by decide)⟩

/-- Claim C6: a `getReadForArray` call only adds entries to the resolved-read
cache: every entry present before the call is still present afterwards with
the same expression (nothing is removed or overwritten), and distinctness of
the cached keys is preserved, so the cache never maps one key to two
different expressions. -/
theorem C6_cache_monotone (index : Expr) (root : Array) (un : UpdateList)
    (s : BuilderState) :
    (∀ k e, lookupRM k s.read_map = some e →
        lookupRM k ((getReadForArray index root un s).2).read_map = some e)
    ∧ (List.Nodup (s.read_map.map Prod.fst) →
        List.Nodup ((((getReadForArray index root un s).2).read_map).map Prod.fst)) :=
  ⟨(getReadForArray_spec index root un s).2.1, getReadForArray_nodup index root un s⟩

/-- Witness for C6: starting from a cache holding one entry, a resolving call
for a different key preserves that entry and keeps the keys distinct. -/
theorem C6_cache_monotone_witness :
    lookupRM (Expr.bvConst 0 32, (⟨"A", 0, 1, some [7]⟩ : Array), UpdateList.nil)
        (((getReadForArray (Expr.bvConst 1 32) (⟨"A", 0, 1, some [7]⟩ : Array)
          UpdateList.nil
          (⟨[], [((Expr.bvConst 0 32, (⟨"A", 0, 1, some [7]⟩ : Array), UpdateList.nil),
            Expr.bvConst 5 8)]⟩ : BuilderState)).2).read_map) = some (Expr.bvConst 5 8)
    ∧ List.Nodup
        (((((getReadForArray (Expr.bvConst 1 32) (⟨"A", 0, 1, some [7]⟩ : Array)
          UpdateList.nil
          (⟨[], [((Expr.bvConst 0 32, (⟨"A", 0, 1, some [7]⟩ : Array), UpdateList.nil),
            Expr.bvConst 5 8)]⟩ : BuilderState)).2).read_map).map Prod.fst)) :=
  ⟨(C6_cache_monotone (Expr.bvConst 1 32) (⟨"A", 0, 1, some [7]⟩ : Array)
      UpdateList.nil
      (⟨[], [((Expr.bvConst 0 32, (⟨"A", 0, 1, some [7]⟩ : Array), UpdateList.nil),
        Expr.bvConst 5 8)]⟩ : BuilderState)).1
      (Expr.bvConst 0 32, (⟨"A", 0, 1, some [7]⟩ : Array), UpdateList.nil)
      (Expr.bvConst 5 8) (by decide),
   (C6_cache_monotone (Expr.bvConst 1 32) (⟨"A", 0, 1, some [7]⟩ : Array)
      UpdateList.nil
      (⟨[], [((Expr.bvConst 0 32, (⟨"A", 0, 1, some [7]⟩ : Array), UpdateList.nil),
        Expr.bvConst 5 8)]⟩ : BuilderState)).2 (by decide)⟩

/-- Claim C7: under the cache invariant, the leaf vector returned by
`getArrayValues` has length exactly the array's declared size, is the vector
`mkLeafVector` builds (so construction happens at most once and every query
returns the same leaf expressions), querying again after a query returns the
identical cached result and state, and the invariant is preserved. -/
theorem C7_leaf_vector (root : Array) (s : BuilderState) (h : goodAV s) :
    (getArrayValues root s).1.length = root.size
    ∧ (getArrayValues root s).1 = mkLeafVector root
    ∧ getArrayValues root ((getArrayValues root s).2) = getArrayValues root s
    ∧ goodAV ((getArrayValues root s).2) := by
  refine ⟨?_, getArrayValues_fst h, getArrayValues_idem root s, getArrayValues_goodAV h⟩
  rw [getArrayValues_fst h, mkLeafVector_length]

/-- Witness for C7 on a symbolic array of size 3 and a fresh builder. -/
theorem C7_leaf_vector_witness :
    (getArrayValues (⟨"B", 1, 3, none⟩ : Array) initState).1.length = 3
    ∧ getArrayValues (⟨"B", 1, 3, none⟩ : Array)
        ((getArrayValues (⟨"B", 1, 3, none⟩ : Array) initState).2) =
      getArrayValues (⟨"B", 1, 3, none⟩ : Array) initState :=
  ⟨(C7_leaf_vector (⟨"B", 1, 3, none⟩ : Array) initState
      (by intro a v h2; simp [avLookup, initState] at h2)).1,
   (C7_leaf_vector (⟨"B", 1, 3, none⟩ : Array) initState
      (by intro a v h2; simp [avLookup, initState] at h2)).2.2.1⟩

/-- Claim C8: for a symbolic array, leaf construction is a deterministic
function of the array's declared name, its identity and the offset: building
the leaf vector in any two caches that do not yet hold the array produces the
same vector, whose leaf at each offset `i` is the 8-bit symbolic constant
named `leafName root i`. -/
theorem C8_deterministic_leaves (root : Array) (s1 s2 : BuilderState)
    (hsym : root.constantValues = none)
    (h1 : avLookup root s1.array_variables = none)
    (h2 : avLookup root s2.array_variables = none) :
    (getArrayValues root s1).1 = (getArrayValues root s2).1
    ∧ ∀ i, i < root.size →
        ((getArrayValues root s1).1).getD i (Expr.bvConst 0 8) =
          Expr.bvVar (leafName root i) 8 := by
  have e1 : (getArrayValues root s1).1 = mkLeafVector root := by
    simp [getArrayValues, h1]
  have e2 : (getArrayValues root s2).1 = mkLeafVector root := by
    simp [getArrayValues, h2]
  refine ⟨by rw [e1, e2], ?_⟩
  intro i hi
  rw [e1, mkLeafVector_getD_sym hsym hi]

/-- Witness for C8: two fresh constructions of the leaves of a symbolic
size-2 array agree, and offset 1 carries its deterministic name. -/
theorem C8_deterministic_leaves_witness :
    (getArrayValues (⟨"buf", 3, 2, none⟩ : Array) initState).1 =
        (getArrayValues (⟨"buf", 3, 2, none⟩ : Array) initState).1
    ∧ ((getArrayValues (⟨"buf", 3, 2, none⟩ : Array) initState).1).getD 1
        (Expr.bvConst 0 8) =
      Expr.bvVar (leafName (⟨"buf", 3, 2, none⟩ : Array) 1) 8 :=
  ⟨(C8_deterministic_leaves (⟨"buf", 3, 2, none⟩ : Array) initState initState
      (by decide) (by decide) (by decide)).1,
   (C8_deterministic_leaves (⟨"buf", 3, 2, none⟩ : Array) initState initState
      (by decide) (by decide) (by decide)).2 1 (by decide)⟩

/-- Claim C9: the innermost default of the base-array conditional chain is
the 8-bit constant 0: for a zero-size array with no updates resolving any
read returns the literal byte 0, and for any array a read at a concrete
index outside `[0, size)` (within 32 bits) with no updates evaluates to 0
rather than to any leaf's value. -/
theorem C9_default_zero (index : Expr) (root : Array) (σ : String → Nat) :
    (root.size = 0 →
        (getReadForArray index root UpdateList.nil initState).1 = Expr.bvConst 0 8)
    ∧ (∀ k, root.size ≤ k → k < 2 ^ 32 →
        eval σ ((getReadForArray (Expr.bvConst k 32) root UpdateList.nil
          initState).1) = 0) := by
  constructor
  · intro h0
    rw [getReadForArray_initState]
    simp only [pureRead]
    rw [buildIteTree_eq_iteChain, h0]
    rfl
  · intro k hk hk32
    rw [getReadForArray_initState]
    simp only [pureRead]
    rw [buildIteTree_eq_iteChain]
    have hidx : eval σ (Expr.bvConst k 32) = k := by
      simp only [eval]
      exact Nat.mod_eq_of_lt hk32
    exact eval_iteChain_miss σ _ (mkLeafVector root) hidx hk32 root.size hk

/-- Witness for C9: a read of a zero-size array returns the byte 0, and an
out-of-range read at index 4 of the constant array `[10,20,30,40]`
evaluates to 0. -/
theorem C9_default_zero_witness :
    (getReadForArray (Expr.bvConst 0 32) (⟨"Z", 2, 0, none⟩ : Array)
        UpdateList.nil initState).1 = Expr.bvConst 0 8
    ∧ eval (fun _ => 0)
        ((getReadForArray (Expr.bvConst 4 32) (⟨"A", 0, 4, some [10, 20, 30, 40]⟩ : Array)
          UpdateList.nil initState).1) = 0 :=
  ⟨(C9_default_zero (Expr.bvConst 0 32) (⟨"Z", 2, 0, none⟩ : Array) (fun _ => 0)).1
      (by decide),
   (C9_default_zero (Expr.bvConst 4 32) (⟨"A", 0, 4, some [10, 20, 30, 40]⟩ : Array)
      (fun _ => 0)).2 4 (by decide) (by decide)⟩

/-- Claim C10: in the base-array fold every equality comparison along the
chain is against the 32-bit constant for the offset, regardless of the
array's size (outermost first: `size-1` down to 0); hence for a non-empty
array the resulting expression is well-sorted exactly when the query index
is 32 bits wide, a precondition under which the ill-sorted case cannot
arise. -/
theorem C10_width_32 (index : Expr) (root : Array) :
    iteSpineEqRhs ((getReadForInitialArray index root initState).1) =
        (List.range root.size).reverse.map (fun i => Expr.bvConst i 32)
    ∧ (0 < root.size →
        (sortOf ((getReadForInitialArray index root initState).1) ≠ none ↔
          sortOf index = some (Z3Sort.bv 32))) := by
  have hbase : (getReadForInitialArray index root initState).1 =
      iteChain index (mkLeafVector root) root.size := by
    rw [getReadForInitialArray_fst, getArrayValues_fst goodAV_initState,
      buildIteTree_eq_iteChain]
  rw [hbase]
  refine ⟨iteSpineEqRhs_iteChain index (mkLeafVector root) root.size, ?_⟩
  intro hpos
  constructor
  · intro hne
    obtain ⟨n, hn⟩ : ∃ n, root.size = n + 1 := ⟨root.size - 1, by omega⟩
    rw [hn] at hne
    exact sortOf_index_of_iteChain_ne_none hne
  · intro hi
    rw [sortOf_iteChain index (mkLeafVector root) (sortOf_mkLeafVector_getD root) hi
      root.size]
    simp

/-- Witness for C10 on the size-4 constant array with a 32-bit index. -/
theorem C10_width_32_witness :
    iteSpineEqRhs ((getReadForInitialArray (Expr.bvConst 7 32)
        (⟨"A", 0, 4, some [10, 20, 30, 40]⟩ : Array) initState).1) =
      (List.range 4).reverse.map (fun i => Expr.bvConst i 32)
    ∧ (sortOf ((getReadForInitialArray (Expr.bvConst 7 32)
        (⟨"A", 0, 4, some [10, 20, 30, 40]⟩ : Array) initState).1) ≠ none ↔
      sortOf (Expr.bvConst 7 32) = some (Z3Sort.bv 32)) :=
  ⟨(C10_width_32 (Expr.bvConst 7 32) (⟨"A", 0, 4, some [10, 20, 30, 40]⟩ : Array)).1,
   (C10_width_32 (Expr.bvConst 7 32) (⟨"A", 0, 4, some [10, 20, 30, 40]⟩ : Array)).2
      (by decide)⟩

end klee
